import Mathlib

/-!
Verification development for the GoQueue dispatch and lease engine.

The job table is modelled as a list of rows; every repository operation
from internal/storage/postgres/job_repo.go becomes a pure function on
that list, with the wall clock passed explicitly.  Timestamps are
integers counting nanoseconds (Go time.Time instants), durations are
integers in the same unit, and Go's zero time is the integer 0.
The status vocabulary is the one the source actually writes:
"queued", "processing" (the spec's canonical name for it is running),
"completed", "failed".
-/

namespace GoQueue

/-- Go's time.Second expressed in nanoseconds. -/
def timeSecond : Int := 1000000000

/-- A row of the jobs table, following internal/models Job:
ID uint, Queue, Type, Payload, Status, Attempts int, MaxRetries int,
AvailableAt time.Time, LockedAt *time.Time, LockedBy *uint,
Result datatypes.JSON, Error string. -/
structure Job where
  id : Nat
  queue : String
  type : String
  payload : String
  status : String
  attempts : Int
  maxRetries : Int
  availableAt : Int
  lockedAt : Option Int
  lockedBy : Option Nat
  result : Option String
  error : String
deriving Repr, DecidableEq

/-- A gorm update with a WHERE id = ? clause: apply the column
assignments to every row whose id matches. -/
def updateWhereId (id : Nat) (f : Job → Job) (db : List Job) : List Job :=
  db.map (fun j => if j.id = id then f j else j)

/-- Repository Create: forces status to "queued" and, when the job's
AvailableAt is the zero time, replaces it with time.Now(). -/
def Create (now : Int) (j : Job) : Job :=
  { j with
      status := "queued"
      availableAt := if j.availableAt = 0 then now else j.availableAt }

/-- Repository UpdateStatus: unconditional write of the status column
of the rows with the given id. -/
def UpdateStatus (id : Nat) (status : String) (db : List Job) : List Job :=
  updateWhereId id (fun j => { j with status := status }) db

/-- Repository IncrementAttempts: attempts := attempts + 1 at the store. -/
def IncrementAttempts (id : Nat) (db : List Job) : List Job :=
  updateWhereId id (fun j => { j with attempts := j.attempts + 1 }) db

/-- Repository SaveResult: one update writing both result and error. -/
def SaveResult (id : Nat) (result : String) (errMsg : String)
    (db : List Job) : List Job :=
  updateWhereId id (fun j => { j with result := some result, error := errMsg }) db

/-- The WHERE clause of the AcquireNext candidate scan:
queue = ?, status = 'queued', available_at <= now,
(locked_at IS NULL OR locked_at < now - lockDuration). -/
def claimOk (now : Int) (queue : String) (lockDuration : Int) (j : Job) : Bool :=
  j.queue == queue && j.status == "queued" &&
    decide (j.availableAt ≤ now) &&
    (match j.lockedAt with
     | none => true
     | some t => decide (t < now - lockDuration))

/-- The ORDER BY (available_at ASC, id ASC) comparison: strictly
earlier in the scan order. -/
def keyLt (a b : Job) : Prop :=
  a.availableAt < b.availableAt ∨
    (a.availableAt = b.availableAt ∧ a.id < b.id)

instance (a b : Job) : Decidable (keyLt a b) :=
  inferInstanceAs (Decidable (_ ∨ _))

/-- ORDER BY ... LIMIT 1 over the rows that passed the WHERE clause:
an element of the list that no other element strictly precedes. -/
def selectCandidate : List Job → Option Job
  | [] => none
  | j :: rest =>
    match selectCandidate rest with
    | none => some j
    | some b => if keyLt b j then some b else some j

/-- The column assignments of the AcquireNext claim update:
locked_at := lockExpiry (now + lockDuration), locked_by := workerID,
status := "processing". -/
def claimUpdate (now : Int) (workerID : Nat) (lockDuration : Int)
    (j : Job) : Job :=
  { j with
      lockedAt := some (now + lockDuration)
      lockedBy := some workerID
      status := "processing" }

/-- Repository AcquireNext: select the first claimable row in
(available_at ASC, id ASC) order, apply the claim update to it, and
return it; with no claimable row return none (the repository's
"no jobs available" error) and leave the table untouched. -/
def AcquireNext (now : Int) (queue : String) (workerID : Nat)
    (lockDuration : Int) (db : List Job) : Option Job × List Job :=
  match selectCandidate (db.filter (claimOk now queue lockDuration)) with
  | none => (none, db)
  | some j =>
      (some (claimUpdate now workerID lockDuration j),
       updateWhereId j.id (claimUpdate now workerID lockDuration) db)

/-- The column assignments of the Release update:
locked_at := NULL, locked_by := NULL, status := "queued". -/
def releasedForm (j : Job) : Job :=
  { j with lockedAt := none, lockedBy := none, status := "queued" }

/-- Repository Release: put the rows with the given id back in released
form, whatever their current status. -/
def Release (id : Nat) (db : List Job) : List Job :=
  updateWhereId id releasedForm db

/-- Repository RetryLater: status := "queued",
available_at := the given time, locked_at := NULL, locked_by := NULL. -/
def RetryLater (id : Nat) (availableAt : Int) (db : List Job) : List Job :=
  updateWhereId id
    (fun j => { j with
        status := "queued"
        availableAt := availableAt
        lockedAt := none
        lockedBy := none }) db

/-- The WHERE clause of ListStuckJobs:
status = 'processing' AND locked_at < now - staleDuration
(a NULL locked_at never satisfies the comparison). -/
def stuckOk (now : Int) (staleDuration : Int) (j : Job) : Bool :=
  j.status == "processing" &&
    (match j.lockedAt with
     | none => false
     | some t => decide (t < now - staleDuration))

/-- Repository ListStuckJobs: the rows satisfying the stuck scan. -/
def ListStuckJobs (now : Int) (staleDuration : Int) (db : List Job) : List Job :=
  db.filter (stuckOk now staleDuration)

/-- Modelled from the spec: the repository's MarkCompleted is declared in
JobRepoInterface and called by the worker, but its implementation is
absent from the sources.  Per the spec it is one atomic update:
status := completed, result := the given result, locked_at := unset,
locked_by := unset. -/
def MarkCompleted (id : Nat) (result : String) (db : List Job) : List Job :=
  updateWhereId id
    (fun j => { j with
        status := "completed"
        result := some result
        lockedAt := none
        lockedBy := none }) db

/-- The janitor body from the worker pool: list the jobs stuck for
more than lockDuration*2 and Release each one in turn. -/
def janitor (now : Int) (lockDuration : Int) (db : List Job) : List Job :=
  ((ListStuckJobs now (lockDuration * 2) db).map Job.id).foldl
    (fun d i => Release i d) db

/-- The fixed tick of the janitor goroutine: time.NewTicker(30 * time.Second). -/
def janitorTick : Int := 30 * timeSecond

/-- The worker's finalization of one executed job (Worker.process):
on handler error, RetryLater at now + 10*time.Second; on success,
MarkCompleted with the marshalled result. -/
def process (now : Int) (outcome : Except String String) (jobId : Nat)
    (db : List Job) : List Job :=
  match outcome with
  | Except.error _ => RetryLater jobId (now + 10 * timeSecond) db
  | Except.ok res => MarkCompleted jobId res db

/-- The reset value of the worker loop's delay: 1 * time.Second. -/
def startDelay : Int := 1 * timeSecond

/-- The cap of the worker loop's delay: 60 * time.Second. -/
def maxDelay : Int := 60 * timeSecond

/-- The delay update of one Worker.Start iteration: a claimed job resets
currentDelay to 1s, an empty pull sets min(currentDelay*2, maxDelay). -/
def nextDelay (claimed : Bool) (currentDelay : Int) : Int :=
  if claimed then startDelay else min (currentDelay * 2) maxDelay

/-- The sleeps performed by Worker.Start on a trace of iteration
outcomes (true = a job was claimed and processed), starting from the
given currentDelay: the loop always reaches the select on
time.After(currentDelay), so every iteration contributes one sleep. -/
def workerSleeps : List Bool → Int → List Int
  | [], _ => []
  | c :: rest, cur =>
    let d := nextDelay c cur
    d :: workerSleeps rest d

/-- The job-creation request body (dto.JobCreateDTO): payload as raw
JSON text, MaxRetries an int, AvailableAt an optional explicit time. -/
structure JobCreateDTO where
  queue : String
  type : String
  payload : String
  maxRetries : Int
  availableAt : Option Int
deriving Repr, DecidableEq

/-- The job value the service's CreateJob constructs after validation:
maxRetries defaulted to 3 when the request's value is 0, AvailableAt
copied only when the client provided one (otherwise the zero time),
every other field at its Go zero value. -/
def buildJob (d : JobCreateDTO) : Job :=
  { id := 0
    queue := d.queue
    type := d.type
    payload := d.payload
    status := ""
    attempts := 0
    maxRetries := if d.maxRetries = 0 then 3 else d.maxRetries
    availableAt := match d.availableAt with
      | some t => t
      | none => 0
    lockedAt := none
    lockedBy := none
    result := none
    error := "" }

/-- The row the service's CreateJob persists: its constructed job after
the repository Create's defaulting. -/
def createdJob (now : Int) (d : JobCreateDTO) : Job :=
  Create now (buildJob d)

/-- The PUT /jobs/:id/status chain: the handler rejects a non-positive
id and (through the required binding) an empty status, and otherwise
the service forwards to the repository UpdateStatus unchanged; no
status-vocabulary check appears anywhere on the path. -/
def handlerUpdateStatus (id : Nat) (status : String) (db : List Job) :
    Option (List Job) :=
  if id < 1 then none
  else if status = "" then none
  else some (UpdateStatus id status db)

/-- The claim's description of an eligible row, written from the spec's
words: queue matches, status is queued, available_at has passed, and
the lock is unset or expired by more than the lease duration. -/
def claimableSpec (now : Int) (q : String) (leaseDuration : Int) (j : Job) : Prop :=
  j.queue = q ∧ j.status = "queued" ∧ j.availableAt ≤ now ∧
    (j.lockedAt = none ∨ ∃ t, j.lockedAt = some t ∧ t < now - leaseDuration)

/-- A ready job used by concrete instantiations: queued, available from
second 2, never locked, in queue "email". -/
def jW1 : Job :=
  { id := 1, queue := "email", type := "send_email", payload := "{}"
    status := "queued", attempts := 0, maxRetries := 3
    availableAt := 2 * timeSecond, lockedAt := none, lockedBy := none
    result := none, error := "" }

/-- A second ready job, available earlier (second 1), so it precedes jW1
in the (available_at, id) order despite its larger id. -/
def jW2 : Job :=
  { id := 2, queue := "email", type := "send_email", payload := "{}"
    status := "queued", attempts := 0, maxRetries := 3
    availableAt := 1 * timeSecond, lockedAt := none, lockedBy := none
    result := none, error := "" }

/-- A two-row table with both ready jobs. -/
def dbW1 : List Job := [jW1, jW2]

/-- A claimed job with max_retries = 0, as it stands while its handler
runs: status "processing", locked by worker 5 since a claim with a 30s
lease (locked_at holds the expiry the source writes). -/
def jW3 : Job :=
  { id := 3, queue := "email", type := "send_email", payload := "{}"
    status := "processing", attempts := 0, maxRetries := 0
    availableAt := 1 * timeSecond, lockedAt := some (130 * timeSecond)
    lockedBy := some 5, result := none, error := "" }

/-- A stuck job: claimed long ago (its recorded locked_at is far in the
past) and still marked "processing". -/
def jW5 : Job :=
  { id := 5, queue := "email", type := "send_email", payload := "{}"
    status := "processing", attempts := 1, maxRetries := 3
    availableAt := 1 * timeSecond, lockedAt := some (10 * timeSecond)
    lockedBy := some 2, result := none, error := "" }

/-- A finished job: status "completed", lock columns already cleared,
result recorded. -/
def jW4 : Job :=
  { id := 4, queue := "email", type := "send_email", payload := "{}"
    status := "completed", attempts := 1, maxRetries := 3
    availableAt := 1 * timeSecond, lockedAt := none, lockedBy := none
    result := some "ok", error := "" }

/-- The request of claim C6's counterexample: an explicitly provided
available_at equal to Go's zero time. -/
def dtoW : JobCreateDTO :=
  { queue := "email", type := "send_email", payload := "{}"
    maxRetries := 0, availableAt := some 0 }

/-! Helper lemmas about the scan order and the candidate selection. -/

theorem keyLt_irrefl (a : Job) : ¬ keyLt a a := by
  simp [keyLt]

theorem keyLt_asymm {a b : Job} (h : keyLt a b) : ¬ keyLt b a := by
  simp only [keyLt] at *
  omega

theorem keyLt_neg_trans {k b a : Job}
    (h1 : ¬ keyLt k b) (h2 : ¬ keyLt b a) : ¬ keyLt k a := by
  simp only [keyLt] at *
  omega

theorem selectCandidate_eq_none {l : List Job} :
    selectCandidate l = none ↔ l = [] := by
  cases l with
  | nil => simp [selectCandidate]
  | cons j rest =>
    simp only [selectCandidate]
    cases selectCandidate rest <;> simp only [List.cons_ne_nil, iff_false]
    · simp
    · split <;> simp

theorem selectCandidate_mem {l : List Job} {j : Job}
    (h : selectCandidate l = some j) : j ∈ l := by
  induction l generalizing j with
  | nil => simp [selectCandidate] at h
  | cons a rest ih =>
    simp only [selectCandidate] at h
    cases hr : selectCandidate rest with
    | none =>
      rw [hr] at h
      simp only [Option.some.injEq] at h
      subst h
      exact List.mem_cons_self a rest
    | some b =>
      rw [hr] at h
      by_cases hk : keyLt b a
      · simp only [if_pos hk, Option.some.injEq] at h
        subst h
        exact List.mem_cons_of_mem _ (ih hr)
      · simp only [if_neg hk, Option.some.injEq] at h
        subst h
        exact List.mem_cons_self a rest

theorem selectCandidate_min {l : List Job} {j : Job}
    (h : selectCandidate l = some j) : ∀ k ∈ l, ¬ keyLt k j := by
  induction l generalizing j with
  | nil => simp [selectCandidate] at h
  | cons a rest ih =>
    intro k hk
    simp only [selectCandidate] at h
    cases hr : selectCandidate rest with
    | none =>
      rw [hr] at h
      simp only [Option.some.injEq] at h
      subst h
      rcases List.mem_cons.mp hk with rfl | hk2
      · exact keyLt_irrefl _
      · rw [selectCandidate_eq_none.mp hr] at hk2
        simp at hk2
    | some b =>
      rw [hr] at h
      by_cases hkb : keyLt b a
      · simp only [if_pos hkb, Option.some.injEq] at h
        subst h
        rcases List.mem_cons.mp hk with rfl | hk2
        · exact keyLt_asymm hkb
        · exact ih hr k hk2
      · simp only [if_neg hkb, Option.some.injEq] at h
        subst h
        rcases List.mem_cons.mp hk with rfl | hk2
        · exact keyLt_irrefl _
        · exact keyLt_neg_trans (ih hr k hk2) hkb

/-- The spec's eligibility predicate coincides with the WHERE clause the
source issues in AcquireNext. -/
theorem claimableSpec_iff_claimOk (now : Int) (q : String) (d : Int) (j : Job) :
    claimableSpec now q d j ↔ claimOk now q d j = true := by
  cases h : j.lockedAt with
  | none => simp [claimableSpec, claimOk, h, and_assoc]
  | some t => simp [claimableSpec, claimOk, h, and_assoc]

/-- Claim C1: every successful AcquireNext(queue, workerId, leaseDuration)
claims a single row that is eligible per the spec's scan condition and
least under (available_at ASC, id ASC) among the eligible rows; when no
eligible row exists the call reports no job available and leaves every
row unmodified. -/
theorem acquireNext_selects_least_claimable
    (now : Int) (q : String) (w : Nat) (d : Int) (db : List Job) :
    (∀ j db2, AcquireNext now q w d db = (some j, db2) →
      ∃ orig, orig ∈ db ∧ claimableSpec now q d orig ∧
        j = claimUpdate now w d orig ∧
        ∀ k ∈ db, claimableSpec now q d k → ¬ keyLt k orig) ∧
    ((∀ k ∈ db, ¬ claimableSpec now q d k) →
      AcquireNext now q w d db = (none, db)) := by
  constructor
  · intro j db2 heq
    unfold AcquireNext at heq
    cases hsel : selectCandidate (db.filter (claimOk now q d)) with
    | none =>
      rw [hsel] at heq
      simp at heq
    | some j0 =>
      rw [hsel] at heq
      simp only [Prod.mk.injEq, Option.some.injEq] at heq
      obtain ⟨hj, -⟩ := heq
      have hmem := selectCandidate_mem hsel
      rw [List.mem_filter] at hmem
      refine ⟨j0, hmem.1, (claimableSpec_iff_claimOk now q d j0).mpr hmem.2,
        hj.symm, ?_⟩
      intro k hk hck
      exact selectCandidate_min hsel k
        (List.mem_filter.mpr ⟨hk, (claimableSpec_iff_claimOk now q d k).mp hck⟩)
  · intro hnone
    have hfil : db.filter (claimOk now q d) = [] := by
      rw [List.filter_eq_nil_iff]
      intro a ha h
      exact hnone a ha ((claimableSpec_iff_claimOk now q d a).mpr h)
    unfold AcquireNext
    rw [hfil]
    rfl

theorem acquireNext_selects_least_claimable_witness :
    ∃ orig, orig ∈ dbW1 ∧
      claimableSpec (100 * timeSecond) "email" (30 * timeSecond) orig ∧
      claimUpdate (100 * timeSecond) 7 (30 * timeSecond) jW2 =
        claimUpdate (100 * timeSecond) 7 (30 * timeSecond) orig ∧
      ∀ k ∈ dbW1, claimableSpec (100 * timeSecond) "email" (30 * timeSecond) k →
        ¬ keyLt k orig :=
  (acquireNext_selects_least_claimable (100 * timeSecond) "email" 7
      (30 * timeSecond) dbW1).1
    (claimUpdate (100 * timeSecond) 7 (30 * timeSecond) jW2)
    (updateWhereId 2 (claimUpdate (100 * timeSecond) 7 (30 * timeSecond)) dbW1)
    (by rfl)

/-- Counterexample to claim C2: at claim time 100s with a 30s lease, the
claimed row's locked_at is written as 130s (claim time plus the lease
duration), not the claim time itself. -/
theorem acquireNext_lockedAt_counterexample :
    ((AcquireNext (100 * timeSecond) "email" 5 (30 * timeSecond) [jW1]).1.map
        Job.lockedAt) = some (some (130 * timeSecond)) ∧
      (130 * timeSecond : Int) ≠ 100 * timeSecond := by
  refine ⟨rfl, by decide⟩

/-- Claim C2 (amended): every successful AcquireNext updates the claimed
row to status "processing" (the source's name for the running state),
locked_at := claim time + leaseDuration (the lease expiry, so the
claim-time scan reclaims the row only 2 x leaseDuration after the
claim), locked_by := workerId; the returned job is the selected row
with exactly those updates, and the stored row with its id carries the
same values. -/
theorem acquireNext_sets_lock_fields
    (now : Int) (q : String) (w : Nat) (d : Int) (db : List Job)
    (j : Job) (db2 : List Job)
    (heq : AcquireNext now q w d db = (some j, db2)) :
    j.status = "processing" ∧ j.lockedAt = some (now + d) ∧
      j.lockedBy = some w ∧
      (∃ orig, orig ∈ db ∧ j = claimUpdate now w d orig) ∧
      ∀ k ∈ db2, k.id = j.id →
        k.status = "processing" ∧ k.lockedAt = some (now + d) ∧
          k.lockedBy = some w := by
  unfold AcquireNext at heq
  cases hsel : selectCandidate (db.filter (claimOk now q d)) with
  | none =>
    rw [hsel] at heq
    simp at heq
  | some j0 =>
    rw [hsel] at heq
    simp only [Prod.mk.injEq, Option.some.injEq] at heq
    obtain ⟨hj, hdb2⟩ := heq
    subst hj
    have hmem := selectCandidate_mem hsel
    rw [List.mem_filter] at hmem
    refine ⟨rfl, rfl, rfl, ⟨j0, hmem.1, rfl⟩, ?_⟩
    intro k hk hid
    rw [← hdb2] at hk
    unfold updateWhereId at hk
    obtain ⟨r, hr, hkr⟩ := List.mem_map.mp hk
    by_cases hrid : r.id = j0.id
    · rw [if_pos hrid] at hkr
      rw [← hkr]
      exact ⟨rfl, rfl, rfl⟩
    · rw [if_neg hrid] at hkr
      exfalso
      apply hrid
      rw [← hkr] at hid
      simpa [claimUpdate] using hid

theorem acquireNext_sets_lock_fields_witness :
    (claimUpdate (100 * timeSecond) 5 (30 * timeSecond) jW1).status =
        "processing" ∧
      (claimUpdate (100 * timeSecond) 5 (30 * timeSecond) jW1).lockedAt =
        some (100 * timeSecond + 30 * timeSecond) ∧
      (claimUpdate (100 * timeSecond) 5 (30 * timeSecond) jW1).lockedBy =
        some 5 ∧
      (∃ orig, orig ∈ [jW1] ∧
        claimUpdate (100 * timeSecond) 5 (30 * timeSecond) jW1 =
          claimUpdate (100 * timeSecond) 5 (30 * timeSecond) orig) ∧
      ∀ k ∈ updateWhereId 1 (claimUpdate (100 * timeSecond) 5 (30 * timeSecond))
          [jW1],
        k.id = (claimUpdate (100 * timeSecond) 5 (30 * timeSecond) jW1).id →
          k.status = "processing" ∧
            k.lockedAt = some (100 * timeSecond + 30 * timeSecond) ∧
            k.lockedBy = some 5 :=
  acquireNext_sets_lock_fields (100 * timeSecond) "email" 5 (30 * timeSecond)
    [jW1] (claimUpdate (100 * timeSecond) 5 (30 * timeSecond) jW1)
    (updateWhereId 1 (claimUpdate (100 * timeSecond) 5 (30 * timeSecond)) [jW1])
    (by rfl)

/-- Claim C3: at the failing input (a claimed job with max_retries = 0
whose handler fails) the worker's finalization neither increments
attempts nor consults max_retries nor finalizes as failed: it requeues
the job for now + 10s with attempts still 0 and status "queued",
contradicting the documented retry flow. -/
theorem process_failure_ignores_retry_budget :
    process (200 * timeSecond) (Except.error "handler failed") 3 [jW3] =
      [{ jW3 with
          status := "queued"
          availableAt := 200 * timeSecond + 10 * timeSecond
          lockedAt := none
          lockedBy := none }] ∧
      (process (200 * timeSecond) (Except.error "handler failed") 3
          [jW3]).map Job.status = ["queued"] ∧
      (process (200 * timeSecond) (Except.error "handler failed") 3
          [jW3]).map Job.attempts = [0] :=
  ⟨rfl, rfl, rfl⟩

/-- Inversion of a successful AcquireNext: the returned job is the claim
update of a selected row that passed the scan, and the new table is the
claim update applied at that row's id. -/
theorem acquireNext_some_inv {now : Int} {q : String} {w : Nat} {d : Int}
    {db : List Job} {j : Job} {db2 : List Job}
    (heq : AcquireNext now q w d db = (some j, db2)) :
    ∃ orig, orig ∈ db ∧ claimOk now q d orig = true ∧
      j = claimUpdate now w d orig ∧
      db2 = updateWhereId orig.id (claimUpdate now w d) db := by
  unfold AcquireNext at heq
  cases hsel : selectCandidate (db.filter (claimOk now q d)) with
  | none =>
    rw [hsel] at heq
    simp at heq
  | some j0 =>
    rw [hsel] at heq
    simp only [Prod.mk.injEq, Option.some.injEq] at heq
    have hmem := selectCandidate_mem hsel
    rw [List.mem_filter] at hmem
    exact ⟨j0, hmem.1, hmem.2, heq.1.symm, heq.2.symm⟩

/-- Any claimable row in the table makes AcquireNext succeed. -/
theorem acquireNext_isSome_of_claimable {now : Int} {q : String} {w : Nat}
    {d : Int} {db : List Job} (k : Job) (hk : k ∈ db)
    (hc : claimOk now q d k = true) :
    (AcquireNext now q w d db).1.isSome = true := by
  unfold AcquireNext
  cases hsel : selectCandidate (db.filter (claimOk now q d)) with
  | none =>
    exfalso
    have hnil := selectCandidate_eq_none.mp hsel
    rw [List.filter_eq_nil_iff] at hnil
    exact hnil k hk (by simp [hc])
  | some j => rfl

/-- Releasing after claiming cancels the claim's column writes. -/
theorem releasedForm_claimUpdate (now : Int) (w : Nat) (d : Int) (j : Job) :
    releasedForm (claimUpdate now w d j) = releasedForm j := rfl

/-- Folding Release over a list of ids is one map over the table: a row
ends up in released form exactly when its id occurs in the list. -/
theorem foldl_release_eq_map (ids : List Nat) (db : List Job) :
    ids.foldl (fun d i => Release i d) db =
      db.map (fun j => if j.id ∈ ids then releasedForm j else j) := by
  induction ids generalizing db with
  | nil =>
    simp
  | cons i rest ih =>
    rw [List.foldl_cons]
    show (rest.foldl (fun d i => Release i d) (Release i db)) = _
    rw [ih]
    unfold Release updateWhereId
    rw [List.map_map]
    apply List.map_congr_left
    intro j _
    by_cases h1 : j.id = i
    · simp only [Function.comp_apply, if_pos h1]
      have hid : (releasedForm j).id = j.id := rfl
      by_cases h2 : j.id ∈ rest
      · simp [hid, h2, releasedForm]
      · simp [hid, h2, List.mem_cons, h1, releasedForm]
    · simp only [Function.comp_apply, if_neg h1]
      by_cases h2 : j.id ∈ rest
      · simp [h2, List.mem_cons]
      · simp [h2, List.mem_cons, h1]

/-- One janitor pass, rewritten as a single map over the table. -/
theorem janitor_eq_map (now d : Int) (db : List Job) :
    janitor now d db =
      db.map (fun j =>
        if j.id ∈ (ListStuckJobs now (d * 2) db).map Job.id then releasedForm j
        else j) :=
  foldl_release_eq_map _ _

theorem janitor_length (now d : Int) (db : List Job) :
    (janitor now d db).length = db.length := by
  rw [janitor_eq_map, List.length_map]

/-- With distinct ids, two rows of the table sharing an id coincide. -/
theorem eq_of_mem_of_id_eq {db : List Job} (hn : (db.map Job.id).Nodup)
    {a b : Job} (ha : a ∈ db) (hb : b ∈ db) (hid : a.id = b.id) : a = b :=
  List.inj_on_of_nodup_map hn ha hb hid

/-- The stuck scan in propositional form. -/
theorem stuckOk_iff (now s : Int) (j : Job) :
    stuckOk now s j = true ↔
      j.status = "processing" ∧ ∃ t, j.lockedAt = some t ∧ t < now - s := by
  cases h : j.lockedAt <;> simp [stuckOk, h]

/-- Row-wise effect of one janitor pass, assuming distinct ids: a row is
put in released form exactly when the stuck scan matches it, and is
otherwise untouched. -/
theorem janitor_get (now d : Int) (db : List Job)
    (hn : (db.map Job.id).Nodup) (i : Nat) (h : i < db.length)
    (h2 : i < (janitor now d db).length) :
    (janitor now d db).get ⟨i, h2⟩ =
      if stuckOk now (d * 2) (db.get ⟨i, h⟩) then releasedForm (db.get ⟨i, h⟩)
      else db.get ⟨i, h⟩ := by
  have hmem : db.get ⟨i, h⟩ ∈ db := List.get_mem db i h
  have hiff : (db.get ⟨i, h⟩).id ∈ (ListStuckJobs now (d * 2) db).map Job.id ↔
      stuckOk now (d * 2) (db.get ⟨i, h⟩) = true := by
    constructor
    · intro hm
      obtain ⟨s, hs, hsid⟩ := List.mem_map.mp hm
      have hsf := List.mem_filter.mp hs
      have hsr : s = db.get ⟨i, h⟩ := eq_of_mem_of_id_eq hn hsf.1 hmem hsid
      rw [← hsr]
      exact hsf.2
    · intro hst
      exact List.mem_map.mpr ⟨_, List.mem_filter.mpr ⟨hmem, hst⟩, rfl⟩
  rw [List.get_of_eq (janitor_eq_map now d db) ⟨i, h2⟩]
  simp only [List.get_eq_getElem, List.getElem_map]
  exact if_congr hiff rfl rfl

/-- Claim C7: the janitor runs on a fixed 30s tick; its scan, issued
with staleDuration = leaseDuration * 2, matches exactly the rows with
status "processing" (running) and locked_at earlier than
now - staleDuration; and the pass Releases each matched row, leaving it
queued with both lock columns cleared and every other row untouched. -/
theorem janitor_pass
    (now d : Int) (db : List Job) (hn : (db.map Job.id).Nodup) :
    janitorTick = 30 * timeSecond ∧
    (∀ j, j ∈ ListStuckJobs now (d * 2) db ↔
      j ∈ db ∧ j.status = "processing" ∧
        ∃ t, j.lockedAt = some t ∧ t < now - d * 2) ∧
    (∀ i (h : i < db.length) (h2 : i < (janitor now d db).length),
      (janitor now d db).get ⟨i, h2⟩ =
        if stuckOk now (d * 2) (db.get ⟨i, h⟩) then
          releasedForm (db.get ⟨i, h⟩)
        else db.get ⟨i, h⟩) := by
  refine ⟨rfl, ?_, janitor_get now d db hn⟩
  intro j
  unfold ListStuckJobs
  rw [List.mem_filter, stuckOk_iff]

theorem janitor_pass_witness :
    (janitor (1000 * timeSecond) (30 * timeSecond) [jW5]).get
        ⟨0, by rw [janitor_length]; decide⟩ = releasedForm jW5 := by
  have h := (janitor_pass (1000 * timeSecond) (30 * timeSecond) [jW5]
      (by decide)).2.2 0 (by decide) (by rw [janitor_length]; decide)
  rw [h]
  rfl

/-- Counterexample to claim C4: Release applied directly to a completed
job's id unconditionally resets it to "queued", after which AcquireNext
claims it again — the terminal transition is not one-way under every
listed repository operation. -/
theorem release_revives_terminal_counterexample :
    (Release 4 [jW4]).map Job.status = ["queued"] ∧
      (AcquireNext (100 * timeSecond) "email" 6 (30 * timeSecond)
          (Release 4 [jW4])).1.isSome = true :=
  ⟨rfl, rfl⟩

/-- Claim C4 (amended): completed and failed rows are closed to the
dispatch protocol's own paths: AcquireNext only ever claims a row whose
status was "queued", and a janitor pass leaves every terminal row
untouched (its scan only matches "processing"); but a Release or
RetryLater issued directly with a terminal job's id resets it to
"queued", so terminality relies on those operations never being invoked
on terminal rows. -/
theorem terminal_rows_untouched_by_dispatch
    (now nowr : Int) (q : String) (w : Nat) (d dr : Int) (db : List Job)
    (hn : (db.map Job.id).Nodup) :
    (∀ j db2, AcquireNext now q w d db = (some j, db2) →
      ∃ orig, orig ∈ db ∧ orig.status = "queued" ∧
        j = claimUpdate now w d orig) ∧
    (∀ i (h : i < db.length) (h2 : i < (janitor nowr dr db).length),
      (db.get ⟨i, h⟩).status = "completed" ∨
          (db.get ⟨i, h⟩).status = "failed" →
        (janitor nowr dr db).get ⟨i, h2⟩ = db.get ⟨i, h⟩) := by
  constructor
  · intro j db2 heq
    obtain ⟨orig, horig, hco, hj, -⟩ := acquireNext_some_inv heq
    exact ⟨orig, horig,
      ((claimableSpec_iff_claimOk now q d orig).mpr hco).2.1, hj⟩
  · intro i h h2 hterm
    rw [janitor_get nowr dr db hn i h h2]
    rw [if_neg]
    intro hst
    have := (stuckOk_iff nowr (dr * 2) _).mp hst
    rcases hterm with he | he <;> rw [he] at this <;> exact absurd this.1 (by decide)

theorem terminal_rows_untouched_by_dispatch_witness :
    (janitor (1000 * timeSecond) (30 * timeSecond) [jW4]).get
        ⟨0, by rw [janitor_length]; decide⟩ = [jW4].get ⟨0, by decide⟩ :=
  (terminal_rows_untouched_by_dispatch (100 * timeSecond) (1000 * timeSecond)
      "email" 6 (30 * timeSecond) (30 * timeSecond) [jW4] (by decide)).2
    0 (by decide) (by rw [janitor_length]; decide) (Or.inl rfl)

/-- Claim C8: after a successful AcquireNext followed by Release of the
claimed id, the row is back in claimable state — queued, no lock
columns, still satisfying the claim scan at any later instant — and a
subsequent AcquireNext on the queue succeeds. -/
theorem acquire_release_restores_claimable
    (now now2 : Int) (q : String) (w w2 : Nat) (d d2 : Int)
    (db db2 : List Job) (j : Job)
    (heq : AcquireNext now q w d db = (some j, db2))
    (hle : now ≤ now2) :
    ∃ k, k ∈ Release j.id db2 ∧ k.id = j.id ∧ k.status = "queued" ∧
      k.lockedAt = none ∧ k.lockedBy = none ∧
      claimableSpec now2 q d2 k ∧
      (AcquireNext now2 q w2 d2 (Release j.id db2)).1.isSome = true := by
  obtain ⟨orig, horig, hco, hj, hdb2⟩ := acquireNext_some_inv heq
  subst hj
  subst hdb2
  have hspec := (claimableSpec_iff_claimOk now q d orig).mpr hco
  have hkmem : releasedForm orig ∈
      Release (claimUpdate now w d orig).id
        (updateWhereId orig.id (claimUpdate now w d) db) := by
    unfold Release updateWhereId
    rw [List.map_map]
    refine List.mem_map.mpr ⟨orig, horig, ?_⟩
    show (if (if orig.id = orig.id then claimUpdate now w d orig else orig).id =
        (claimUpdate now w d orig).id then
          releasedForm (if orig.id = orig.id then claimUpdate now w d orig
            else orig)
        else (if orig.id = orig.id then claimUpdate now w d orig else orig)) =
      releasedForm orig
    rw [if_pos rfl, if_pos rfl]
    rfl
  have hkspec : claimableSpec now2 q d2 (releasedForm orig) := by
    refine ⟨hspec.1, rfl, le_trans hspec.2.2.1 hle, Or.inl rfl⟩
  refine ⟨releasedForm orig, hkmem, rfl, rfl, rfl, rfl, hkspec, ?_⟩
  exact acquireNext_isSome_of_claimable (releasedForm orig) hkmem
    ((claimableSpec_iff_claimOk now2 q d2 _).mp hkspec)

theorem acquire_release_restores_claimable_witness :
    ∃ k, k ∈ Release (claimUpdate (100 * timeSecond) 7 (30 * timeSecond) jW1).id
        (updateWhereId 1 (claimUpdate (100 * timeSecond) 7 (30 * timeSecond))
          [jW1]) ∧
      k.id = (claimUpdate (100 * timeSecond) 7 (30 * timeSecond) jW1).id ∧
      k.status = "queued" ∧ k.lockedAt = none ∧ k.lockedBy = none ∧
      claimableSpec (200 * timeSecond) "email" (30 * timeSecond) k ∧
      (AcquireNext (200 * timeSecond) "email" 8 (30 * timeSecond)
        (Release (claimUpdate (100 * timeSecond) 7 (30 * timeSecond) jW1).id
          (updateWhereId 1
            (claimUpdate (100 * timeSecond) 7 (30 * timeSecond))
            [jW1]))).1.isSome = true :=
  acquire_release_restores_claimable (100 * timeSecond) (200 * timeSecond)
    "email" 7 8 (30 * timeSecond) (30 * timeSecond) [jW1]
    (updateWhereId 1 (claimUpdate (100 * timeSecond) 7 (30 * timeSecond)) [jW1])
    (claimUpdate (100 * timeSecond) 7 (30 * timeSecond) jW1)
    (by rfl) (by decide)

theorem updateWhereId_length (id : Nat) (f : Job → Job) (db : List Job) :
    (updateWhereId id f db).length = db.length := by
  simp [updateWhereId]

/-- Row-wise effect of a WHERE id = ? update. -/
theorem updateWhereId_get (id : Nat) (f : Job → Job) (db : List Job)
    (i : Nat) (h : i < db.length) (h2 : i < (updateWhereId id f db).length) :
    (updateWhereId id f db).get ⟨i, h2⟩ =
      if (db.get ⟨i, h⟩).id = id then f (db.get ⟨i, h⟩) else db.get ⟨i, h⟩ := by
  simp only [updateWhereId, List.get_eq_getElem, List.getElem_map]

/-- Claim C5: MarkCompleted(id, result) is one update of the rows with
the given id: status becomes "completed", result is set to the given
value, both lock columns are cleared, every other column of the row is
preserved, and every other row is untouched. -/
theorem markCompleted_atomic (id : Nat) (res : String) (db : List Job) :
    (MarkCompleted id res db).length = db.length ∧
    ∀ i (h : i < db.length) (h2 : i < (MarkCompleted id res db).length),
      ((db.get ⟨i, h⟩).id = id →
        ((MarkCompleted id res db).get ⟨i, h2⟩).status = "completed" ∧
        ((MarkCompleted id res db).get ⟨i, h2⟩).result = some res ∧
        ((MarkCompleted id res db).get ⟨i, h2⟩).lockedAt = none ∧
        ((MarkCompleted id res db).get ⟨i, h2⟩).lockedBy = none ∧
        ((MarkCompleted id res db).get ⟨i, h2⟩).id = (db.get ⟨i, h⟩).id ∧
        ((MarkCompleted id res db).get ⟨i, h2⟩).queue = (db.get ⟨i, h⟩).queue ∧
        ((MarkCompleted id res db).get ⟨i, h2⟩).type = (db.get ⟨i, h⟩).type ∧
        ((MarkCompleted id res db).get ⟨i, h2⟩).payload =
          (db.get ⟨i, h⟩).payload ∧
        ((MarkCompleted id res db).get ⟨i, h2⟩).attempts =
          (db.get ⟨i, h⟩).attempts ∧
        ((MarkCompleted id res db).get ⟨i, h2⟩).maxRetries =
          (db.get ⟨i, h⟩).maxRetries ∧
        ((MarkCompleted id res db).get ⟨i, h2⟩).availableAt =
          (db.get ⟨i, h⟩).availableAt ∧
        ((MarkCompleted id res db).get ⟨i, h2⟩).error = (db.get ⟨i, h⟩).error) ∧
      ((db.get ⟨i, h⟩).id ≠ id →
        (MarkCompleted id res db).get ⟨i, h2⟩ = db.get ⟨i, h⟩) := by
  refine ⟨updateWhereId_length _ _ _, ?_⟩
  intro i h h2
  have hrow : (MarkCompleted id res db).get ⟨i, h2⟩ =
      if (db.get ⟨i, h⟩).id = id then
        { db.get ⟨i, h⟩ with
            status := "completed"
            result := some res
            lockedAt := none
            lockedBy := none }
      else db.get ⟨i, h⟩ :=
    updateWhereId_get id _ db i h h2
  rw [hrow]
  constructor
  · intro hid
    rw [if_pos hid]
    exact ⟨rfl, rfl, rfl, rfl, rfl, rfl, rfl, rfl, rfl, rfl, rfl, rfl⟩
  · intro hid
    rw [if_neg hid]

theorem markCompleted_atomic_witness :
    ((MarkCompleted 3 "done" [jW3]).get ⟨0, by decide⟩).status =
        "completed" ∧
      ((MarkCompleted 3 "done" [jW3]).get ⟨0, by decide⟩).result =
        some "done" ∧
      ((MarkCompleted 3 "done" [jW3]).get ⟨0, by decide⟩).lockedAt = none ∧
      ((MarkCompleted 3 "done" [jW3]).get ⟨0, by decide⟩).lockedBy = none := by
  have h := ((markCompleted_atomic 3 "done" [jW3]).2 0 (by decide)
    (by decide)).1 rfl
  exact ⟨h.1, h.2.1, h.2.2.1, h.2.2.2.1⟩

/-- Counterexample to claim C6: a request that explicitly provides
available_at = the zero time does not keep that value — the repository's
IsZero check replaces it with the creation time. -/
theorem createdJob_zero_availableAt_counterexample :
    dtoW.availableAt = some 0 ∧
      (createdJob (7 * timeSecond) dtoW).availableAt = 7 * timeSecond ∧
      (7 * timeSecond : Int) ≠ 0 :=
  ⟨rfl, rfl, by decide⟩

/-- Claim C6 (amended): every job persisted through CreateJob + Create
is stored with status "queued" and attempts 0; max_retries equals the
requested value when nonzero and defaults to 3 when the request omits
or zeroes it; available_at equals the explicitly provided value when
present and nonzero, and defaults to the creation time both when absent
and when the provided value is the zero time. -/
theorem createdJob_defaults (d : JobCreateDTO) (now : Int) :
    (createdJob now d).status = "queued" ∧
      (createdJob now d).attempts = 0 ∧
      (createdJob now d).maxRetries =
        (if d.maxRetries = 0 then 3 else d.maxRetries) ∧
      (createdJob now d).availableAt =
        (match d.availableAt with
          | some t => if t = 0 then now else t
          | none => now) := by
  unfold createdJob Create buildJob
  refine ⟨rfl, rfl, rfl, ?_⟩
  cases d.availableAt with
  | none => simp
  | some t =>
    by_cases ht : t = 0 <;> simp [ht]

/-- Claim C10: the status-update path applies no vocabulary check: for
any non-empty status string s (canonical or not) the HTTP handler
accepts it and the repository persists s verbatim on the rows with the
given id, changing no other column and no other row. -/
theorem updateStatus_verbatim (id : Nat) (s : String) (db : List Job) :
    (1 ≤ id → s ≠ "" →
      handlerUpdateStatus id s db = some (UpdateStatus id s db)) ∧
    (UpdateStatus id s db).length = db.length ∧
    ∀ i (h : i < db.length) (h2 : i < (UpdateStatus id s db).length),
      ((db.get ⟨i, h⟩).id = id →
        ((UpdateStatus id s db).get ⟨i, h2⟩).status = s ∧
        ((UpdateStatus id s db).get ⟨i, h2⟩).id = (db.get ⟨i, h⟩).id ∧
        ((UpdateStatus id s db).get ⟨i, h2⟩).queue = (db.get ⟨i, h⟩).queue ∧
        ((UpdateStatus id s db).get ⟨i, h2⟩).type = (db.get ⟨i, h⟩).type ∧
        ((UpdateStatus id s db).get ⟨i, h2⟩).payload =
          (db.get ⟨i, h⟩).payload ∧
        ((UpdateStatus id s db).get ⟨i, h2⟩).attempts =
          (db.get ⟨i, h⟩).attempts ∧
        ((UpdateStatus id s db).get ⟨i, h2⟩).maxRetries =
          (db.get ⟨i, h⟩).maxRetries ∧
        ((UpdateStatus id s db).get ⟨i, h2⟩).availableAt =
          (db.get ⟨i, h⟩).availableAt ∧
        ((UpdateStatus id s db).get ⟨i, h2⟩).lockedAt =
          (db.get ⟨i, h⟩).lockedAt ∧
        ((UpdateStatus id s db).get ⟨i, h2⟩).lockedBy =
          (db.get ⟨i, h⟩).lockedBy ∧
        ((UpdateStatus id s db).get ⟨i, h2⟩).result = (db.get ⟨i, h⟩).result ∧
        ((UpdateStatus id s db).get ⟨i, h2⟩).error = (db.get ⟨i, h⟩).error) ∧
      ((db.get ⟨i, h⟩).id ≠ id →
        (UpdateStatus id s db).get ⟨i, h2⟩ = db.get ⟨i, h⟩) := by
  refine ⟨?_, updateWhereId_length _ _ _, ?_⟩
  · intro hid hs
    unfold handlerUpdateStatus
    rw [if_neg (by omega), if_neg hs]
  · intro i h h2
    have hrow : (UpdateStatus id s db).get ⟨i, h2⟩ =
        if (db.get ⟨i, h⟩).id = id then { db.get ⟨i, h⟩ with status := s }
        else db.get ⟨i, h⟩ :=
      updateWhereId_get id _ db i h h2
    rw [hrow]
    constructor
    · intro hid
      rw [if_pos hid]
      exact ⟨rfl, rfl, rfl, rfl, rfl, rfl, rfl, rfl, rfl, rfl, rfl, rfl⟩
    · intro hid
      rw [if_neg hid]

/-- Witness for C10 at a status string outside the canonical
vocabulary. -/
theorem updateStatus_verbatim_witness :
    handlerUpdateStatus 3 "banana" [jW3] =
        some (UpdateStatus 3 "banana" [jW3]) ∧
      ((UpdateStatus 3 "banana" [jW3]).get ⟨0, by decide⟩).status =
        "banana" := by
  refine ⟨(updateStatus_verbatim 3 "banana" [jW3]).1 (by decide) (by decide),
    ?_⟩
  exact (((updateStatus_verbatim 3 "banana" [jW3]).2.2 0 (by decide)
    (by decide)).1 rfl).1

/-- Counterexample to claim C9: the loop body reaches its sleep on every
iteration, so an iteration that claimed and processed a job still
sleeps (1s, the reset value), and the first empty iteration sleeps 2s —
the doubling is applied before the first empty sleep, so no 1s backoff
sleep ever occurs on an empty iteration. -/
theorem worker_sleeps_counterexample :
    workerSleeps [true] startDelay = [1 * timeSecond] ∧
      workerSleeps [false] startDelay = [2 * timeSecond] ∧
      (2 * timeSecond : Int) ≠ 1 * timeSecond ∧
      (1 * timeSecond : Int) ≠ 0 :=
  ⟨rfl, rfl, by decide, by decide⟩

theorem minDouble (a c : Int) (hc : 0 ≤ c) :
    min (min a c * 2) c = min (a * 2) c := by
  rcases le_or_lt a c with h | h
  · rw [min_eq_left h]
  · rw [min_eq_right h.le, min_eq_right (by omega),
      min_eq_right (by omega)]

/-- The delays of a run of empty iterations, starting from a capped
power of two: each successive sleep doubles, still capped. -/
theorem workerSleeps_all_empty (n m : Nat) :
    workerSleeps (List.replicate n false)
        (min ((2 : Int) ^ m * timeSecond) maxDelay) =
      (List.range n).map
        (fun k => min ((2 : Int) ^ (m + k + 1) * timeSecond) maxDelay) := by
  induction n generalizing m with
  | zero => rfl
  | succ n ih =>
    have hd : nextDelay false (min ((2 : Int) ^ m * timeSecond) maxDelay) =
        min ((2 : Int) ^ (m + 1) * timeSecond) maxDelay := by
      unfold nextDelay
      rw [if_neg (by decide)]
      rw [show ((2 : Int) ^ (m + 1)) * timeSecond =
        ((2 : Int) ^ m * timeSecond) * 2 from by ring]
      exact minDouble _ _ (by decide)
    rw [List.replicate_succ]
    simp only [workerSleeps]
    rw [hd, ih (m + 1), List.range_succ_eq_map]
    simp only [List.map_cons, List.map_map]
    refine congrArg₂ _ (by norm_num) ?_
    apply List.map_congr_left
    intro k _
    simp only [Function.comp_apply]
    rw [show m + 1 + k + 1 = m + (k + 1) + 1 from by omega]

/-- Claim C9 (amended): the worker loop sleeps at the end of every
iteration, claimed or not; an iteration that processed a job sleeps the
reset delay of 1s; every sleep is capped at 60s; and a run of n empty
iterations from a fresh start sleeps min(2^(k+1) seconds, 60s) on its
k-th iteration — 2s, 4s, ..., 60s, doubling from a first empty sleep of
2s rather than 1s. -/
theorem worker_loop_backoff :
    (∀ tr (cur : Int), (workerSleeps tr cur).length = tr.length) ∧
    (∀ tr (cur x : Int), x ∈ workerSleeps tr cur → x ≤ maxDelay) ∧
    (∀ tr (cur : Int), workerSleeps (true :: tr) cur =
      startDelay :: workerSleeps tr startDelay) ∧
    (∀ n, workerSleeps (List.replicate n false) startDelay =
      (List.range n).map
        (fun k => min ((2 : Int) ^ (k + 1) * timeSecond) maxDelay)) := by
  refine ⟨?_, ?_, ?_, ?_⟩
  · intro tr
    induction tr with
    | nil => intro cur; rfl
    | cons c rest ih =>
      intro cur
      simp only [workerSleeps, List.length_cons, ih]
  · intro tr
    induction tr with
    | nil =>
      intro cur x hx
      simp [workerSleeps] at hx
    | cons c rest ih =>
      intro cur x hx
      simp only [workerSleeps, List.mem_cons] at hx
      rcases hx with rfl | hx
      · cases c with
        | true =>
          rw [show nextDelay true cur = startDelay from rfl]
          decide
        | false => exact min_le_right _ _
      · exact ih _ _ hx
  · intro tr cur
    simp [workerSleeps, nextDelay]
  · intro n
    rw [show startDelay = min ((2 : Int) ^ 0 * timeSecond) maxDelay
      from by decide]
    rw [workerSleeps_all_empty n 0]
    simp

theorem worker_loop_backoff_witness :
    (workerSleeps [false, true] startDelay).length = 2 ∧
      (2 * timeSecond : Int) ≤ maxDelay ∧
      workerSleeps [true] (5 * timeSecond) =
        startDelay :: workerSleeps [] startDelay ∧
      workerSleeps (List.replicate 2 false) startDelay =
        (List.range 2).map
          (fun k => min ((2 : Int) ^ (k + 1) * timeSecond) maxDelay) :=
  ⟨worker_loop_backoff.1 [false, true] startDelay,
    worker_loop_backoff.2.1 [false] startDelay (2 * timeSecond) (by decide),
    worker_loop_backoff.2.2.1 [] (5 * timeSecond),
    worker_loop_backoff.2.2.2 2⟩

end GoQueue
